import Mathlib

/-!
Verification of the linked-group synchronization engine of the TrenchBroom scene
graph editor (GroupNode.cpp): link-set membership, the recursive
clone-and-transform algorithm, the entity-property preservation merge, and the
top-level update propagator with its failure semantics.

The geometry library (vecmath), the Entity value type and the Brush value type
are external collaborators of the translation unit under study; they are
modelled from the specification where noted. Machine floating point is modelled
by exact rationals.
-/

namespace TB

/-- Modelled from the spec: an exact fraction standing in for a machine float
of the vecmath geometry library. The denominator is kept positive by every
constructed value; comparisons are value comparisons by cross multiplication,
matching the value semantics of float comparison. -/
structure Q where
  num : ℤ
  den : ℤ
deriving DecidableEq, Repr

def Q.add (a b : Q) : Q := ⟨a.num * b.den + b.num * a.den, a.den * b.den⟩

def Q.sub (a b : Q) : Q := ⟨a.num * b.den - b.num * a.den, a.den * b.den⟩

def Q.mul (a b : Q) : Q := ⟨a.num * b.num, a.den * b.den⟩

/-- Division, normalizing the sign so the denominator stays positive. -/
def Q.div (a b : Q) : Q :=
  if 0 ≤ b.num then ⟨a.num * b.den, a.den * b.num⟩ else ⟨-(a.num * b.den), a.den * (-b.num)⟩

def Q.negq (a : Q) : Q := ⟨-a.num, a.den⟩

def Q.leb (a b : Q) : Bool := decide (a.num * b.den ≤ b.num * a.den)

def Q.ltb (a b : Q) : Bool := decide (a.num * b.den < b.num * a.den)

/-- Value equality of fractions, the float equality test of the source. -/
def Q.eqb (a b : Q) : Bool := decide (a.num * b.den = b.num * a.den)

def Q.minq (a b : Q) : Q := if Q.leb a b then a else b

def Q.maxq (a b : Q) : Q := if Q.leb a b then b else a

instance (n : Nat) : OfNat Q n := ⟨⟨Int.ofNat n, 1⟩⟩

instance : Neg Q := ⟨Q.negq⟩

instance : Add Q := ⟨Q.add⟩

instance : Sub Q := ⟨Q.sub⟩

instance : Mul Q := ⟨Q.mul⟩

instance : Div Q := ⟨Q.div⟩

/-- Modelled from the spec: a 3-component vector of the vecmath geometry
library, with exact fractions in place of machine floats. -/
structure Vec3 where
  x : Q
  y : Q
  z : Q
deriving DecidableEq, Repr

def Vec3.add (a b : Vec3) : Vec3 := ⟨a.x + b.x, a.y + b.y, a.z + b.z⟩

def Vec3.neg (a : Vec3) : Vec3 := ⟨-a.x, -a.y, -a.z⟩

/-- Componentwise order on vectors, used for bounding box containment. -/
def Vec3.le3 (a b : Vec3) : Bool :=
  Q.leb a.x b.x && Q.leb a.y b.y && Q.leb a.z b.z

def Vec3.minV (a b : Vec3) : Vec3 := ⟨Q.minq a.x b.x, Q.minq a.y b.y, Q.minq a.z b.z⟩

def Vec3.maxV (a b : Vec3) : Vec3 := ⟨Q.maxq a.x b.x, Q.maxq a.y b.y, Q.maxq a.z b.z⟩

/-- Modelled from the spec: a 3 by 3 matrix over the rationals, the linear part
of an affine model-space transformation. -/
structure Mat3 where
  m00 : Q
  m01 : Q
  m02 : Q
  m10 : Q
  m11 : Q
  m12 : Q
  m20 : Q
  m21 : Q
  m22 : Q
deriving DecidableEq, Repr

def Mat3.idM : Mat3 := ⟨1, 0, 0, 0, 1, 0, 0, 0, 1⟩

def Mat3.mul (a b : Mat3) : Mat3 :=
  ⟨a.m00 * b.m00 + a.m01 * b.m10 + a.m02 * b.m20,
   a.m00 * b.m01 + a.m01 * b.m11 + a.m02 * b.m21,
   a.m00 * b.m02 + a.m01 * b.m12 + a.m02 * b.m22,
   a.m10 * b.m00 + a.m11 * b.m10 + a.m12 * b.m20,
   a.m10 * b.m01 + a.m11 * b.m11 + a.m12 * b.m21,
   a.m10 * b.m02 + a.m11 * b.m12 + a.m12 * b.m22,
   a.m20 * b.m00 + a.m21 * b.m10 + a.m22 * b.m20,
   a.m20 * b.m01 + a.m21 * b.m11 + a.m22 * b.m21,
   a.m20 * b.m02 + a.m21 * b.m12 + a.m22 * b.m22⟩

def Mat3.mulVec (a : Mat3) (v : Vec3) : Vec3 :=
  ⟨a.m00 * v.x + a.m01 * v.y + a.m02 * v.z,
   a.m10 * v.x + a.m11 * v.y + a.m12 * v.z,
   a.m20 * v.x + a.m21 * v.y + a.m22 * v.z⟩

def Mat3.det (a : Mat3) : Q :=
  a.m00 * (a.m11 * a.m22 - a.m12 * a.m21)
    - a.m01 * (a.m10 * a.m22 - a.m12 * a.m20)
    + a.m02 * (a.m10 * a.m21 - a.m11 * a.m20)

def Mat3.adj (a : Mat3) : Mat3 :=
  ⟨a.m11 * a.m22 - a.m12 * a.m21,
   a.m02 * a.m21 - a.m01 * a.m22,
   a.m01 * a.m12 - a.m02 * a.m11,
   a.m12 * a.m20 - a.m10 * a.m22,
   a.m00 * a.m22 - a.m02 * a.m20,
   a.m02 * a.m10 - a.m00 * a.m12,
   a.m10 * a.m21 - a.m11 * a.m20,
   a.m01 * a.m20 - a.m00 * a.m21,
   a.m00 * a.m11 - a.m01 * a.m10⟩

def Mat3.smul (q : Q) (a : Mat3) : Mat3 :=
  ⟨q * a.m00, q * a.m01, q * a.m02,
   q * a.m10, q * a.m11, q * a.m12,
   q * a.m20, q * a.m21, q * a.m22⟩

/-- Modelled from the spec: an affine model-space transformation, standing for
the vm mat4x4 values used by the group update logic. The spec describes group
transformations as accumulated affine transforms. -/
structure Transform where
  linear : Mat3
  offset : Vec3
deriving DecidableEq, Repr

def Transform.idT : Transform := ⟨Mat3.idM, ⟨0, 0, 0⟩⟩

def Transform.applyV (t : Transform) (v : Vec3) : Vec3 :=
  (t.linear.mulVec v).add t.offset

/-- Composition matching matrix multiplication a * b: apply b first, then a. -/
def Transform.comp (a b : Transform) : Transform :=
  ⟨a.linear.mul b.linear, (a.linear.mulVec b.offset).add a.offset⟩

/-- Modelled from the spec: vm invert returns a success flag together with the
inverse; the affine transform is invertible exactly when the determinant of the
linear part is nonzero. -/
def Transform.invert (t : Transform) : Bool × Transform :=
  if Q.eqb t.linear.det 0 then (false, Transform.idT)
  else
    let inv := Mat3.smul (1 / t.linear.det) t.linear.adj
    (true, ⟨inv, (inv.mulVec t.offset).neg⟩)

/-- A translation transform, used by concrete scenarios. -/
def translateT (v : Vec3) : Transform := ⟨Mat3.idM, v⟩

/-- Modelled from the spec: an axis-aligned bounding box of the vecmath
library. -/
structure BBox where
  lo : Vec3
  hi : Vec3
deriving DecidableEq, Repr

/-- Modelled from the spec: full containment of one box in another, used for
the world bounds check. -/
def BBox.containsB (outer inner : BBox) : Bool :=
  Vec3.le3 outer.lo inner.lo && Vec3.le3 inner.hi outer.hi

/-- The bounds of a freshly constructed group node with no children, which is
what the world bounds check of the clone algorithm observes for cloned group
nodes: the zero box at the origin. -/
def zeroBox : BBox := ⟨⟨0, 0, 0⟩, ⟨0, 0, 0⟩⟩

def pointBox (v : Vec3) : BBox := ⟨v, v⟩

def translateBox (b : BBox) (v : Vec3) : BBox := ⟨b.lo.add v, b.hi.add v⟩

/-- The Group value: a name and a transformation. It mirrors Model::Group, the
payload held by value inside a group node. -/
structure Group where
  name : String
  transformation : Transform
deriving DecidableEq, Repr

/-- Modelled from the spec: Group::transform composes the given transformation
onto the stored one, new = transform after old. -/
def Group.transform (g : Group) (t : Transform) : Group :=
  { g with transformation := Transform.comp t g.transformation }

/-- Modelled from the spec: the Entity value type. An entity holds a placement
origin, an ordered mapping of property keys to values, and a declared set of
preserved property keys. -/
structure Entity where
  origin : Vec3
  properties : List (String × String)
  preservedProperties : List String
deriving DecidableEq, Repr

/-- First-match lookup in an ordered property list. -/
def getPropL : List (String × String) → String → Option String
  | [], _ => none
  | p :: rest, k => if p.1 = k then some p.2 else getPropL rest k

/-- Removal of a key from an ordered property list. -/
def removePropL : List (String × String) → String → List (String × String)
  | [], _ => []
  | p :: rest, k => if p.1 = k then removePropL rest k else p :: removePropL rest k

/-- Modelled from the spec: add a property or update it in place if the key is
already present. -/
def addOrUpdatePropL : List (String × String) → String → String → List (String × String)
  | [], k, v => [(k, v)]
  | p :: rest, k, v => if p.1 = k then (k, v) :: rest else p :: addOrUpdatePropL rest k v

/-- The value of the last entry carrying the given key, if any: the value that
survives when an ordered property list is re-applied entry by entry. -/
def lastVal : List (String × String) → String → Option String
  | [], _ => none
  | p :: rest, q =>
    match lastVal rest q with
    | some v => some v
    | none => if p.1 = q then some p.2 else none

/-- Prefix test on character lists. -/
def isPrefixOfCL : List Char → List Char → Bool
  | [], _ => true
  | _ :: _, [] => false
  | a :: as, b :: bs => a == b && isPrefixOfCL as bs

/-- Modelled from the spec: key is a numbered variant of base when it extends
base by a nonempty decimal digit suffix. -/
def isNumberedOf (base key : String) : Bool :=
  decide (base.toList.length < key.toList.length) && isPrefixOfCL base.toList key.toList
    && (key.toList.drop base.toList.length).all Char.isDigit

def Entity.property (e : Entity) (k : String) : Option String := getPropL e.properties k

def Entity.removeProperty (e : Entity) (k : String) : Entity :=
  { e with properties := removePropL e.properties k }

def Entity.addOrUpdateProperty (e : Entity) (k v : String) : Entity :=
  { e with properties := addOrUpdatePropL e.properties k v }

/-- Modelled from the spec: all properties whose key is a numbered variant of
the given base key, in order. -/
def Entity.numberedProperties (e : Entity) (base : String) : List (String × String) :=
  e.properties.filter (fun p => isNumberedOf base p.1)

/-- Modelled from the spec: remove every property whose key is a numbered
variant of the given base key. -/
def Entity.removeNumberedProperty (e : Entity) (base : String) : Entity :=
  { e with properties := e.properties.filter (fun p => !(isNumberedOf base p.1)) }

def Entity.setPreservedProperties (e : Entity) (l : List String) : Entity :=
  { e with preservedProperties := l }

/-- Modelled from the spec: Entity::transform applies the transformation to the
placement-derived fields of the entity. -/
def Entity.transform (e : Entity) (t : Transform) : Entity :=
  { e with origin := t.applyV e.origin }

/-- Byte-lexicographic order on character lists, the std string order. -/
def charListLe : List Char → List Char → Bool
  | [], _ => true
  | _ :: _, [] => false
  | c :: cs, d :: ds => if c = d then charListLe cs ds else decide (c < d)

def strLeb (a b : String) : Bool := charListLe a.toList b.toList

/-- Insertion step of the sort used by kdl vec sort and remove duplicates. -/
def insortS (s : String) : List String → List String
  | [] => [s]
  | t :: ts => if strLeb s t then s :: t :: ts else t :: insortS s ts

def sortIns : List String → List String
  | [] => []
  | s :: rest => insortS s (sortIns rest)

/-- Removal of adjacent duplicates, matching std unique on a sorted range. -/
def dedupAdj : List String → List String
  | [] => []
  | [a] => [a]
  | a :: b :: rest => if a = b then dedupAdj (b :: rest) else a :: dedupAdj (b :: rest)

/-- kdl vec sort and remove duplicates: sort, then drop adjacent duplicates. -/
def sortDedup (l : List String) : List String := dedupAdj (sortIns l)

/-- The body of the per-key loop of preserveEntityProperties: remove the key,
re-add the literal value of the corresponding entity if present, remove all
numbered variants, then re-add all numbered variants of the corresponding
entity. -/
def preserveStep (corresponding c : Entity) (propertyKey : String) : Entity :=
  let c1 := c.removeProperty propertyKey
  let c2 := match corresponding.property propertyKey with
    | some v => c1.addOrUpdateProperty propertyKey v
    | none => c1
  let c3 := c2.removeNumberedProperty propertyKey
  List.foldl (fun acc p => acc.addOrUpdateProperty p.1 p.2) c3
    (corresponding.numberedProperties propertyKey)

/-- The entity-level preserveEntityProperties of GroupNode.cpp: if neither side
declares preserved keys this is a no-op; otherwise the preserved key set of the
clone is replaced by the one of the corresponding entity, and every key in the
sorted duplicate-free union of both declared sets is re-applied from the
corresponding entity. -/
def preserveEntityProperties (clonedEntity correspondingEntity : Entity) : Entity :=
  if clonedEntity.preservedProperties = [] ∧ correspondingEntity.preservedProperties = [] then
    clonedEntity
  else
    let allPreservedProperties :=
      sortDedup (clonedEntity.preservedProperties ++ correspondingEntity.preservedProperties)
    let c0 := clonedEntity.setPreservedProperties correspondingEntity.preservedProperties
    List.foldl (preserveStep correspondingEntity) c0 allPreservedProperties

/-- Modelled from the spec: the solid representation of a brush, reduced to its
axis-aligned bounds. -/
structure Brush where
  lo : Vec3
  hi : Vec3
deriving DecidableEq, Repr

/-- Modelled from the spec: Brush::transform applies a geometric transform to
the solid representation and fails when the resulting geometry is degenerate.
The world bounds and the lock flag are accepted as in the source but do not
influence this reduced model. -/
def Brush.transform (b : Brush) (_worldBounds : BBox) (t : Transform) (_lockAux : Bool) :
    Option Brush :=
  let p := t.applyV b.lo
  let q := t.applyV b.hi
  let lo2 := p.minV q
  let hi2 := p.maxV q
  if Q.ltb lo2.x hi2.x && Q.ltb lo2.y hi2.y && Q.ltb lo2.z hi2.z then some ⟨lo2, hi2⟩
  else none

/-- The closed node kind set of the tree: world root, layer, group, entity and
brush, each owning an ordered list of children. Group nodes appearing inside a
subtree carry only their Group value; link set membership of top level group
nodes is modelled separately by the world state. -/
inductive Node where
  | world : List Node → Node
  | layer : List Node → Node
  | group : Group → List Node → Node
  | entity : Entity → List Node → Node
  | brush : Brush → List Node → Node
deriving Repr

/-- The error type UpdateLinkedGroupsError: a human readable message. -/
structure UpdateLinkedGroupsError where
  message : String
deriving DecidableEq, Repr

mutual

/-- The treatment of a single child by cloneAndTransformChildren of
GroupNode.cpp: dispatch on the node kind and transform, failing on world and
layer nodes and on brush transform failure; then check world bounds of the
freshly built node, recurse into the children of the source child and attach
the results. -/
def cloneAndTransformNode (worldBounds : BBox) (transformation : Transform) :
    Node → Except UpdateLinkedGroupsError Node
  | Node.world _ =>
      Except.error ⟨"Visited world node while updating linked groups"⟩
  | Node.layer _ =>
      Except.error ⟨"Visited layer node while updating linked groups"⟩
  | Node.group g cs =>
      if BBox.containsB worldBounds zeroBox then
        match cloneAndTransformChildren worldBounds transformation cs with
        | Except.error e => Except.error e
        | Except.ok cs2 => Except.ok (Node.group (Group.transform g transformation) cs2)
      else Except.error ⟨"Linked node exceeds world bounds"⟩
  | Node.entity e cs =>
      if BBox.containsB worldBounds (pointBox (Entity.transform e transformation).origin) then
        match cloneAndTransformChildren worldBounds transformation cs with
        | Except.error err => Except.error err
        | Except.ok cs2 => Except.ok (Node.entity (Entity.transform e transformation) cs2)
      else Except.error ⟨"Linked node exceeds world bounds"⟩
  | Node.brush b cs =>
      match Brush.transform b worldBounds transformation true with
      | none => Except.error ⟨"Brush transform failed"⟩
      | some b2 =>
        if BBox.containsB worldBounds ⟨b2.lo, b2.hi⟩ then
          match cloneAndTransformChildren worldBounds transformation cs with
          | Except.error e => Except.error e
          | Except.ok cs2 => Except.ok (Node.brush b2 cs2)
        else Except.error ⟨"Linked node exceeds world bounds"⟩

/-- The recursive clone-and-transform algorithm cloneAndTransformChildren of
GroupNode.cpp, acting on the list of children of a node in order. The first
error anywhere aborts everything. -/
def cloneAndTransformChildren (worldBounds : BBox) (transformation : Transform) :
    List Node → Except UpdateLinkedGroupsError (List Node)
  | [] => Except.ok []
  | c :: rest =>
      match cloneAndTransformNode worldBounds transformation c with
      | Except.error e => Except.error e
      | Except.ok c2 =>
        match cloneAndTransformChildren worldBounds transformation rest with
        | Except.error e => Except.error e
        | Except.ok rest2 => Except.ok (c2 :: rest2)

end

mutual

/-- The treatment of one positional pair by the template
preserveEntityProperties of GroupNode.cpp: group pairs recurse into their
children, entity pairs merge entity properties, mismatched kinds and kinds
without property semantics leave the cloned node unchanged. -/
def preserveNodePair : Node → Node → Node
  | Node.group g cs, Node.group _ cos2 => Node.group g (preserveEntityPropertiesList cs cos2)
  | Node.entity e cs, Node.entity e2 _ => Node.entity (preserveEntityProperties e e2) cs
  | cl, _ => cl

/-- The lockstep walk of the template preserveEntityProperties of
GroupNode.cpp: cloned children and corresponding children are matched by
position while both lists last; cloned children beyond the corresponding list
stay untouched. -/
def preserveEntityPropertiesList : List Node → List Node → List Node
  | [], _ => []
  | cl, [] => cl
  | cl :: cls, co :: cos => preserveNodePair cl co :: preserveEntityPropertiesList cls cos

end

/-- The shared record of a link set, GroupNode::SharedData: the ordered member
list and the shared persistent identity. Members are identified by numeric
node handles, following the arena-and-handle reading of the shared pointer
structure given in the design notes of the spec. -/
structure SharedData where
  linkedGroups : List Nat
  persistentId : Option Nat
deriving DecidableEq, Repr

/-- The edit state of a group node. -/
inductive EditState where
  | opened
  | closed
  | descendantOpen
deriving DecidableEq, Repr

/-- The mutable object state of one GroupNode: its Group value, the handle of
its shared link set record, its edit state, its children and its own persistent
identity. -/
structure GroupNodeObj where
  group : Group
  sharedData : Nat
  editState : EditState
  children : List Node
  persistentId : Option Nat

/-- The explicit heap threaded through the stateful operations: all group node
objects and all shared records, addressed by handles, with allocation
counters. -/
structure World where
  nodes : List (Nat × GroupNodeObj)
  recs : List (Nat × SharedData)
  nextNodeId : Nat
  nextRecId : Nat

def assocFind {α : Type} : List (Nat × α) → Nat → Option α
  | [], _ => none
  | p :: rest, i => if p.1 = i then some p.2 else assocFind rest i

def assocSet {α : Type} : List (Nat × α) → Nat → α → List (Nat × α)
  | [], i, a => [(i, a)]
  | p :: rest, i, a => if p.1 = i then (i, a) :: rest else p :: assocSet rest i a

def defaultGroupNodeObj : GroupNodeObj :=
  ⟨⟨"", Transform.idT⟩, 0, EditState.closed, [], none⟩

def getNode (w : World) (i : Nat) : GroupNodeObj :=
  (assocFind w.nodes i).getD defaultGroupNodeObj

def getRec (w : World) (r : Nat) : SharedData :=
  (assocFind w.recs r).getD ⟨[], none⟩

def setNode (w : World) (i : Nat) (o : GroupNodeObj) : World :=
  { w with nodes := assocSet w.nodes i o }

def setRec (w : World) (r : Nat) (d : SharedData) : World :=
  { w with recs := assocSet w.recs r d }

/-- The GroupNode constructor: a fresh node holding the Group value, a fresh
shared record containing no members and no identity, edit state Closed, no
children, no persistent id. Returns the new world and the handle of the new
node. -/
def newGroupNode (w : World) (g : Group) : World × Nat :=
  let rid := w.nextRecId
  let nid := w.nextNodeId
  ({ nodes := assocSet w.nodes nid ⟨g, rid, EditState.closed, [], none⟩,
     recs := assocSet w.recs rid ⟨[], none⟩,
     nextNodeId := nid + 1,
     nextRecId := rid + 1 }, nid)

/-- GroupNode::inLinkSetWith: two nodes are in the same link set exactly when
they reference the identical shared record. -/
def inLinkSetWith (w : World) (self other : Nat) : Prop :=
  (getNode w other).sharedData = (getNode w self).sharedData

instance (w : World) (self other : Nat) : Decidable (inLinkSetWith w self other) := by
  unfold inLinkSetWith
  infer_instance

/-- GroupNode::addToLinkSet: the other node adopts the shared record of the
calling node. -/
def addToLinkSet (w : World) (self other : Nat) : World :=
  setNode w other { getNode w other with sharedData := (getNode w self).sharedData }

/-- GroupNode::linked: a node is linked when it appears in the member list of
its own shared record. -/
def linked (w : World) (g : Nat) : Bool :=
  (getRec w (getNode w g).sharedData).linkedGroups.contains g

/-- GroupNode::linkedGroups: a snapshot of the member list of the shared
record. -/
def linkedGroups (w : World) (g : Nat) : List Nat :=
  (getRec w (getNode w g).sharedData).linkedGroups

/-- GroupNode::link: append self to the member list of the shared record. -/
def link (w : World) (g : Nat) : World :=
  let r := (getNode w g).sharedData
  setRec w r { getRec w r with linkedGroups := (getRec w r).linkedGroups ++ [g] }

/-- GroupNode::unlink: remove self from the member list of the shared
record. -/
def unlink (w : World) (g : Nat) : World :=
  let r := (getNode w g).sharedData
  setRec w r { getRec w r with linkedGroups := (getRec w r).linkedGroups.filter (fun x => x ≠ g) }

/-- GroupNode::setPersistentId: set the own id, and seed the shared record if
its identity is still unset. -/
def setPersistentId (w : World) (g : Nat) (pid : Nat) : World :=
  let w1 := setNode w g { getNode w g with persistentId := some pid }
  let r := (getNode w g).sharedData
  match (getRec w1 r).persistentId with
  | none => setRec w1 r { getRec w1 r with persistentId := some pid }
  | some _ => w1

/-- GroupNode::sharedPersistentId. -/
def sharedPersistentId (w : World) (g : Nat) : Option Nat :=
  (getRec w (getNode w g).sharedData).persistentId

/-- The member loop of GroupNode::updateLinkedGroups. The propagating node is
identified by selfId; ch is the snapshot of its children, selfShared the
snapshot of its shared record handle, inv the inverse of its own group
transformation. Each member other than self is processed in member list order:
clone and transform the children of self with the relative transform, run the
property preserver against the children of the member, construct a fresh clone
of the member, attach it to the link set of self, attach the new children, and
record the pair. The first error aborts with no result list. -/
def ulgLoop (wb : BBox) (selfId : Nat) (ch : List Node) (selfShared : Nat) (inv : Transform) :
    List Nat → World → List (Nat × Nat) →
    World × Except UpdateLinkedGroupsError (List (Nat × Nat))
  | [], w, acc => (w, Except.ok acc)
  | m :: rest, w, acc =>
    if m = selfId then ulgLoop wb selfId ch selfShared inv rest w acc
    else
      match cloneAndTransformChildren wb
          (Transform.comp (getNode w m).group.transformation inv) ch with
      | Except.error e => (w, Except.error e)
      | Except.ok newChildren =>
        let newChildren2 := preserveEntityPropertiesList newChildren (getNode w m).children
        let wc := newGroupNode w (getNode w m).group
        let w2 := setNode wc.1 wc.2 { getNode wc.1 wc.2 with sharedData := selfShared }
        let w3 := setNode w2 wc.2 { getNode w2 wc.2 with children := newChildren2 }
        ulgLoop wb selfId ch selfShared inv rest w3 (acc ++ [(m, wc.2)])

/-- GroupNode::updateLinkedGroups: invert the own group transformation, failing
with the not-invertible error when impossible, then process every other link
set member. The possibly grown world is returned together with the result. -/
def updateLinkedGroups (w : World) (selfId : Nat) (wb : BBox) :
    World × Except UpdateLinkedGroupsError (List (Nat × Nat)) :=
  match Transform.invert (getNode w selfId).group.transformation with
  | (false, _) => (w, Except.error ⟨"Group transformation is not invertible"⟩)
  | (true, inv) =>
      ulgLoop wb selfId (getNode w selfId).children (getNode w selfId).sharedData inv
        (linkedGroups w selfId) w []

mutual

/-- The no-failure predicate for a single subtree: the root is of a kind valid
inside a group, its brush transform succeeds where applicable, the transformed
node lies within the world bounds, and the same holds recursively below. -/
def subtreeOk1 (worldBounds : BBox) (transformation : Transform) : Node → Bool
  | Node.world _ => false
  | Node.layer _ => false
  | Node.group _ cs =>
      BBox.containsB worldBounds zeroBox && subtreeOkB worldBounds transformation cs
  | Node.entity e cs =>
      BBox.containsB worldBounds (pointBox (Entity.transform e transformation).origin)
        && subtreeOkB worldBounds transformation cs
  | Node.brush b cs =>
      match Brush.transform b worldBounds transformation true with
      | none => false
      | some b2 => BBox.containsB worldBounds ⟨b2.lo, b2.hi⟩
            && subtreeOkB worldBounds transformation cs

/-- The no-failure predicate over a list of subtrees: no node anywhere in them
is a world or layer node, fails its brush transform, or escapes the world
bounds once transformed. This is the condition under which the clone algorithm
succeeds. -/
def subtreeOkB (worldBounds : BBox) (transformation : Transform) : List Node → Bool
  | [] => true
  | c :: rest =>
      subtreeOk1 worldBounds transformation c && subtreeOkB worldBounds transformation rest

end

/-- Success test for results, matching kdl result success observation. -/
def exceptIsOk {ε α : Type} : Except ε α → Bool
  | Except.ok _ => true
  | Except.error _ => false

/-- The heap of the second world extends the heap of the first: allocation
counters grew and every handle allocated in the first world resolves
identically in the second. -/
def FrameGe (w w2 : World) : Prop :=
  w.nextNodeId ≤ w2.nextNodeId ∧ w.nextRecId ≤ w2.nextRecId
  ∧ (∀ i, i < w.nextNodeId → assocFind w2.nodes i = assocFind w.nodes i)
  ∧ (∀ r, r < w.nextRecId → assocFind w2.recs r = assocFind w.recs r)

/-- Invariant of the pairs produced by the update loop, read in world v: both
handles are allocated, the replacement references the shared record of the
propagating node, and the children of the replacement are the cloned and
transformed children of the propagating node reconciled against the children
of the old member. -/
def clonePairInv (wb : BBox) (ch : List Node) (selfShared : Nat) (inv : Transform)
    (v : World) (p : Nat × Nat) : Prop :=
  p.1 < v.nextNodeId ∧ p.2 < v.nextNodeId
  ∧ (getNode v p.2).sharedData = selfShared
  ∧ ∃ nc, cloneAndTransformChildren wb
        (Transform.comp (getNode v p.1).group.transformation inv) ch = Except.ok nc
      ∧ (getNode v p.2).children = preserveEntityPropertiesList nc (getNode v p.1).children

/-- Generous world bounds for the concrete scenarios. -/
def bigBounds : BBox := ⟨⟨-1024, -1024, -1024⟩, ⟨1024, 1024, 1024⟩⟩

/-- Tight world bounds under which the translated brush of the concrete
scenario escapes. -/
def smallBounds : BBox := ⟨⟨-20, -20, -20⟩, ⟨20, 20, 20⟩⟩

/-- A concrete brush occupying the box from the origin to (16, 16, 16). -/
def brushEx : Brush := ⟨⟨0, 0, 0⟩, ⟨16, 16, 16⟩⟩

/-- Member B of the two-member scenario: baseline translation (8, 0, 0), one
brush child. -/
def nodeB : GroupNodeObj :=
  ⟨⟨"B", translateT ⟨8, 0, 0⟩⟩, 0, EditState.closed, [Node.brush brushEx []], none⟩

/-- Member A of the two-member scenario: translated by (32, 0, 0) relative to
the baseline of B. -/
def nodeA : GroupNodeObj :=
  ⟨⟨"A", translateT ⟨40, 0, 0⟩⟩, 0, EditState.closed, [], none⟩

/-- The two-member link set scenario: nodes 0 (B) and 1 (A) share record 0
whose member list is [0, 1]. -/
def wPair : World := ⟨[(0, nodeB), (1, nodeA)], [(0, ⟨[0, 1], none⟩)], 2, 1⟩

/-- A singular affine transform: the zero linear part. -/
def degenerateT : Transform := ⟨⟨0, 0, 0, 0, 0, 0, 0, 0, 0⟩, ⟨0, 0, 0⟩⟩

/-- A linked group node carrying a non-invertible transformation. -/
def wDegenerate : World :=
  ⟨[(0, ⟨⟨"D", degenerateT⟩, 0, EditState.closed, [], none⟩)], [(0, ⟨[0], none⟩)], 1, 1⟩

/-- A world in which node 1 appears in the member list of record 0 while its
own shared record is record 2. Reachable through the public operations: after
a call of addToLinkSet of node 0 on node 1, then link on node 1, then
addToLinkSet of node 2 on node 1. -/
def wDetached : World :=
  ⟨[(0, ⟨⟨"a", Transform.idT⟩, 0, EditState.closed, [], none⟩),
    (1, ⟨⟨"b", Transform.idT⟩, 2, EditState.closed, [], none⟩)],
   [(0, ⟨[1], none⟩), (2, ⟨[], none⟩)], 2, 3⟩

/-- A three-node world built through the public operations only: nodes 0, 1
and 2 are constructed, node 1 adopts the record of node 0, nodes 0 and 1 are
linked (record 0 member list [0, 1]), and then node 1 adopts the record of
node 2 while remaining in the member list of record 0. Node 1 is a detached
member: listed in record 0 but referencing record 2. -/
def wDetachedPair : World :=
  let w0 : World := ⟨[], [], 0, 0⟩
  let a := newGroupNode w0 ⟨"n", Transform.idT⟩
  let b := newGroupNode a.1 ⟨"m", Transform.idT⟩
  let c := newGroupNode b.1 ⟨"c", Transform.idT⟩
  let w1 := addToLinkSet c.1 a.2 b.2
  let w2 := link w1 a.2
  let w3 := link w2 b.2
  addToLinkSet w3 c.2 b.2

/-- Two linked members sharing record 0 with no persistent identity yet. -/
def wShared : World :=
  ⟨[(0, ⟨⟨"a", Transform.idT⟩, 0, EditState.closed, [], none⟩),
    (1, ⟨⟨"b", Transform.idT⟩, 0, EditState.closed, [], none⟩)],
   [(0, ⟨[0, 1], none⟩)], 2, 1⟩

/-- A concrete cloned entity: key k carries the propagated value v1, and key
other carries x; no preserved keys are declared on this side. -/
def entC : Entity := ⟨⟨0, 0, 0⟩, [("k", "v1"), ("other", "x")], []⟩

/-- A concrete target entity: key k is declared preserved and carries v0, with
the numbered variant k2 carrying n0. -/
def entT : Entity := ⟨⟨0, 0, 0⟩, [("k", "v0"), ("k2", "n0")], ["k"]⟩

/-! ## Helper lemmas about the heap -/

theorem assocFind_set_self {α : Type} (l : List (Nat × α)) (i : Nat) (a : α) :
    assocFind (assocSet l i a) i = some a := by
  induction l with
  | nil => simp [assocFind, assocSet]
  | cons p rest ih =>
    by_cases h : p.1 = i
    · simp [assocSet, h, assocFind]
    · simp [assocSet, h, assocFind, ih]

theorem assocFind_set_ne {α : Type} (l : List (Nat × α)) (i j : Nat) (a : α) (h : j ≠ i) :
    assocFind (assocSet l i a) j = assocFind l j := by
  induction l with
  | nil => simp [assocFind, assocSet, Ne.symm h]
  | cons p rest ih =>
    simp only [assocSet]
    by_cases hp : p.1 = i
    · have h1 : ¬ i = j := fun hij => h hij.symm
      have h2 : ¬ p.1 = j := by rw [hp]; exact h1
      simp [if_pos hp, assocFind, h1, h2]
    · simp only [if_neg hp, assocFind, ih]

theorem getNode_setNode_self (w : World) (i : Nat) (o : GroupNodeObj) :
    getNode (setNode w i o) i = o := by
  simp [getNode, setNode, assocFind_set_self]

theorem getNode_setNode_ne (w : World) (i j : Nat) (o : GroupNodeObj) (h : j ≠ i) :
    getNode (setNode w i o) j = getNode w j := by
  simp [getNode, setNode, assocFind_set_ne _ _ _ _ h]

theorem getRec_setNode (w : World) (i : Nat) (o : GroupNodeObj) (r : Nat) :
    getRec (setNode w i o) r = getRec w r := rfl

theorem getNode_setRec (w : World) (r : Nat) (d : SharedData) (i : Nat) :
    getNode (setRec w r d) i = getNode w i := rfl

theorem getRec_setRec_self (w : World) (r : Nat) (d : SharedData) :
    getRec (setRec w r d) r = d := by
  simp [getRec, setRec, assocFind_set_self]

theorem getRec_setRec_ne (w : World) (r s : Nat) (d : SharedData) (h : s ≠ r) :
    getRec (setRec w r d) s = getRec w s := by
  simp [getRec, setRec, assocFind_set_ne _ _ _ _ h]

/-! ## Link set claims -/

/-- C8: for every group node g, inLinkSetWith g g is true, and immediately
after construction the new group node is not linked and its member list
snapshot is empty: a new group node is a singleton. -/
theorem claimC8 :
    (∀ w g, inLinkSetWith w g g)
    ∧ (∀ w gval, linked (newGroupNode w gval).1 (newGroupNode w gval).2 = false
        ∧ linkedGroups (newGroupNode w gval).1 (newGroupNode w gval).2 = []) := by
  constructor
  · intro w g
    rfl
  · intro w gval
    have hn : getNode (newGroupNode w gval).1 (newGroupNode w gval).2 =
        ⟨gval, w.nextRecId, EditState.closed, [], none⟩ := by
      simp [newGroupNode, getNode, assocFind_set_self]
    have hr : getRec (newGroupNode w gval).1 w.nextRecId = ⟨[], none⟩ := by
      simp [newGroupNode, getRec, assocFind_set_self]
    constructor
    · simp [linked, hn, hr]
    · simp [linkedGroups, hn, hr]

/-- C7 counterexample: in the world wDetached, node 1 appears in the member
list of record 0 owned by node 0 while referencing record 2; after
addToLinkSet of node 0 on node 1, node 1 is linked, refuting the sentence
that the target of addToLinkSet is never linked afterwards. -/
theorem claimC7_cex : linked (addToLinkSet wDetached 0 1) 1 = true := by rfl

/-- C7 (amended): after a.addToLinkSet(b), inLinkSetWith holds symmetrically
between a and b, no shared record is altered (hence no member list changes),
and b is linked afterwards precisely when b already appeared in the member
list of the shared record of a; in particular b is not linked when it was not
in that list. -/
theorem claimC7 (w : World) (a b : Nat) :
    inLinkSetWith (addToLinkSet w a b) a b
    ∧ inLinkSetWith (addToLinkSet w a b) b a
    ∧ (∀ r, assocFind (addToLinkSet w a b).recs r = assocFind w.recs r)
    ∧ linked (addToLinkSet w a b) b
        = (getRec w (getNode w a).sharedData).linkedGroups.contains b := by
  have hb : getNode (addToLinkSet w a b) b =
      { getNode w b with sharedData := (getNode w a).sharedData } := by
    simp [addToLinkSet, getNode_setNode_self]
  have ha : getNode (addToLinkSet w a b) a =
      { getNode w a with sharedData := (getNode w a).sharedData } := by
    by_cases hab : a = b
    · subst hab
      simp [addToLinkSet, getNode_setNode_self]
    · rw [addToLinkSet, getNode_setNode_ne _ _ _ _ hab]
  have hrec : ∀ r, getRec (addToLinkSet w a b) r = getRec w r := fun _ => rfl
  refine ⟨?_, ?_, ?_, ?_⟩
  · show (getNode (addToLinkSet w a b) b).sharedData = (getNode (addToLinkSet w a b) a).sharedData
    rw [ha, hb]
  · show (getNode (addToLinkSet w a b) a).sharedData = (getNode (addToLinkSet w a b) b).sharedData
    rw [ha, hb]
  · intro r
    rfl
  · rw [linked, hb, hrec]

/-- C9: shared persistent identity is write-once. If the shared record of g
has no identity yet, setPersistentId on g seeds it, observable from every
member m of the same link set; if the shared identity is already set to q, a
later setPersistentId on any member m of the same link set leaves the shared
identity observed from g unchanged at q. -/
theorem claimC9 (w : World) (g m : Nat) (pid : Nat) :
    (sharedPersistentId w g = none →
      (getNode w m).sharedData = (getNode w g).sharedData →
      sharedPersistentId (setPersistentId w g pid) m = some pid)
    ∧ (∀ q, sharedPersistentId w g = some q →
      (getNode w m).sharedData = (getNode w g).sharedData →
      sharedPersistentId (setPersistentId w m pid) g = some q) := by
  constructor
  · intro hnone hmem
    have hshared : ∀ i, (getNode (setNode w g { getNode w g with persistentId := some pid }) i).sharedData
        = (getNode w i).sharedData := by
      intro i
      by_cases hig : i = g
      · subst hig
        rw [getNode_setNode_self]
      · rw [getNode_setNode_ne _ _ _ _ hig]
    rw [setPersistentId]
    rw [sharedPersistentId] at hnone
    simp only [getRec_setNode]
    rw [hnone]
    rw [sharedPersistentId, getNode_setRec, hshared, hmem, getRec_setRec_self]
  · intro q hsome hmem
    rw [sharedPersistentId] at hsome
    have hscrut : (getRec (setNode w m { getNode w m with persistentId := some pid })
        (getNode w m).sharedData).persistentId = some q := by
      rw [getRec_setNode, hmem]
      exact hsome
    have hnodeShared : (getNode (setNode w m { getNode w m with persistentId := some pid }) g).sharedData
        = (getNode w g).sharedData := by
      by_cases hgm : g = m
      · subst hgm
        rw [getNode_setNode_self]
      · rw [getNode_setNode_ne _ _ _ _ hgm]
    simp only [setPersistentId]
    rw [hscrut]
    show sharedPersistentId (setNode w m { getNode w m with persistentId := some pid }) g = some q
    rw [sharedPersistentId, hnodeShared, getRec_setNode]
    exact hsome

/-- C9 witness: in the two-member world wShared, seeding from node 0 with id 7
is observed from node 1, and a later call on node 1 with id 9 leaves the
shared identity at 7 as observed from node 0. -/
theorem claimC9_witness :
    sharedPersistentId (setPersistentId wShared 0 7) 1 = some 7
    ∧ sharedPersistentId (setPersistentId (setPersistentId wShared 0 7) 1 9) 0 = some 7 := by
  constructor
  · exact (claimC9 wShared 0 1 7).1 (by rfl) (by rfl)
  · exact (claimC9 (setPersistentId wShared 0 7) 0 1 9).2 7 (by rfl) (by rfl)

/-! ## Update propagator: not invertible -/

/-- C5: when the group transformation of the propagating node has no inverse,
updateLinkedGroups fails with the not-invertible error, returns the world
untouched and produces no replacement pair: no member is processed. -/
theorem claimC5 (w : World) (selfId : Nat) (wb : BBox)
    (h : (Transform.invert (getNode w selfId).group.transformation).1 = false) :
    updateLinkedGroups w selfId wb
      = (w, Except.error ⟨"Group transformation is not invertible"⟩) := by
  rcases hinv : Transform.invert (getNode w selfId).group.transformation with ⟨b, t⟩
  rw [hinv] at h
  simp only at h
  subst h
  simp only [updateLinkedGroups, hinv]

/-- C5 witness: the degenerate one-member world fails exactly this way. -/
theorem claimC5_witness :
    (Transform.invert (getNode wDegenerate 0).group.transformation).1 = false
    ∧ updateLinkedGroups wDegenerate 0 bigBounds
        = (wDegenerate, Except.error ⟨"Group transformation is not invertible"⟩) :=
  ⟨by rfl, claimC5 wDegenerate 0 bigBounds (by rfl)⟩

/-! ## Update propagator: result shape -/

theorem ulgLoop_ok_mapFst (wb : BBox) (selfId : Nat) (ch : List Node) (selfShared : Nat)
    (inv : Transform) :
    ∀ (ms : List Nat) (w : World) (acc : List (Nat × Nat)) (w2 : World) (ps : List (Nat × Nat)),
      ulgLoop wb selfId ch selfShared inv ms w acc = (w2, Except.ok ps) →
      ps.map Prod.fst = acc.map Prod.fst ++ ms.filter (fun m => m != selfId) := by
  intro ms
  induction ms with
  | nil =>
    intro w acc w2 ps h
    simp only [ulgLoop, Prod.mk.injEq, Except.ok.injEq] at h
    rw [← h.2]
    simp
  | cons m rest ih =>
    intro w acc w2 ps h
    simp only [ulgLoop] at h
    split at h
    · rename_i hm
      rw [ih _ _ _ _ h]
      simp [List.filter_cons, hm]
    · rename_i hm
      split at h
      · exact absurd h (by simp)
      · rename_i nc heq
        rw [ih _ _ _ _ h]
        simp [List.filter_cons, hm]

/-- C2: a successful updateLinkedGroups returns exactly one pair per member of
the link set other than the propagating node, in member list order with the
propagating node skipped; the old sides of the pairs are exactly the filtered
member list, which is empty when the propagating node is the only member. -/
theorem claimC2 (w : World) (selfId : Nat) (wb : BBox) (w2 : World) (ps : List (Nat × Nat))
    (h : updateLinkedGroups w selfId wb = (w2, Except.ok ps)) :
    ps.map Prod.fst = (linkedGroups w selfId).filter (fun m => m != selfId) := by
  simp only [updateLinkedGroups] at h
  split at h
  · exact absurd h (by simp)
  · rename_i inv heq
    have := ulgLoop_ok_mapFst wb selfId (getNode w selfId).children (getNode w selfId).sharedData
      inv (linkedGroups w selfId) w [] w2 ps h
    simpa using this

/-- C2 witness: on the concrete two-member scenario the returned pairs cover
exactly member 1, matching the filtered member list. -/
theorem claimC2_witness :
    List.map Prod.fst [(1, 2)] = (linkedGroups wPair 0).filter (fun m => m != 0) :=
  claimC2 wPair 0 bigBounds (updateLinkedGroups wPair 0 bigBounds).1 [(1, 2)] (by rfl)

/-! ## Frame reasoning for the update loop -/

theorem newGroupNode_snd (w : World) (g : Group) : (newGroupNode w g).2 = w.nextNodeId := rfl

theorem frameGe_refl (w : World) : FrameGe w w :=
  ⟨Nat.le_refl _, Nat.le_refl _, fun _ _ => rfl, fun _ _ => rfl⟩

theorem frameGe_trans {a b c : World} (h1 : FrameGe a b) (h2 : FrameGe b c) : FrameGe a c := by
  obtain ⟨n1, r1, f1, g1⟩ := h1
  obtain ⟨n2, r2, f2, g2⟩ := h2
  refine ⟨Nat.le_trans n1 n2, Nat.le_trans r1 r2, ?_, ?_⟩
  · intro i hi
    rw [f2 i (Nat.lt_of_lt_of_le hi n1), f1 i hi]
  · intro r hr
    rw [g2 r (Nat.lt_of_lt_of_le hr r1), g1 r hr]

theorem getNode_frame {w w2 : World} (h : FrameGe w w2) {i : Nat} (hi : i < w.nextNodeId) :
    getNode w2 i = getNode w i := by
  rw [getNode, getNode, h.2.2.1 i hi]

theorem getRec_frame {w w2 : World} (h : FrameGe w w2) {r : Nat} (hr : r < w.nextRecId) :
    getRec w2 r = getRec w r := by
  rw [getRec, getRec, h.2.2.2 r hr]

/-- One body step of the update loop extends the heap: a fresh node and a
fresh record are allocated and only the fresh node handle is written. -/
theorem frame_step (w : World) (g : Group) (o2 o3 : GroupNodeObj) :
    FrameGe w (setNode (setNode (newGroupNode w g).1 (newGroupNode w g).2 o2)
      (newGroupNode w g).2 o3) := by
  refine ⟨?_, ?_, ?_, ?_⟩
  · show w.nextNodeId ≤ w.nextNodeId + 1
    exact Nat.le_succ _
  · show w.nextRecId ≤ w.nextRecId + 1
    exact Nat.le_succ _
  · intro i hi
    have hne : i ≠ w.nextNodeId := Nat.ne_of_lt hi
    show assocFind (assocSet (assocSet (assocSet w.nodes w.nextNodeId _) w.nextNodeId o2)
      w.nextNodeId o3) i = assocFind w.nodes i
    rw [assocFind_set_ne _ _ _ _ hne, assocFind_set_ne _ _ _ _ hne,
      assocFind_set_ne _ _ _ _ hne]
  · intro r hr
    have hne : r ≠ w.nextRecId := Nat.ne_of_lt hr
    show assocFind (assocSet w.recs w.nextRecId _) r = assocFind w.recs r
    rw [assocFind_set_ne _ _ _ _ hne]

theorem ulgLoop_frame (wb : BBox) (selfId : Nat) (ch : List Node) (selfShared : Nat)
    (inv : Transform) :
    ∀ (ms : List Nat) (w : World) (acc : List (Nat × Nat)),
      FrameGe w (ulgLoop wb selfId ch selfShared inv ms w acc).1 := by
  intro ms
  induction ms with
  | nil =>
    intro w acc
    exact frameGe_refl w
  | cons m rest ih =>
    intro w acc
    simp only [ulgLoop]
    split
    · exact ih w acc
    · split
      · exact frameGe_refl w
      · exact frameGe_trans (frame_step w (getNode w m).group _ _) (ih _ _)

theorem updateLinkedGroups_frame (w : World) (selfId : Nat) (wb : BBox) :
    FrameGe w (updateLinkedGroups w selfId wb).1 := by
  simp only [updateLinkedGroups]
  split
  · exact frameGe_refl w
  · exact ulgLoop_frame wb selfId _ _ _ _ w []

theorem assocFind_mem {α : Type} {l : List (Nat × α)} {i : Nat} {a : α}
    (h : assocFind l i = some a) : (i, a) ∈ l := by
  induction l with
  | nil => simp [assocFind] at h
  | cons p rest ih =>
    rw [assocFind] at h
    by_cases hp : p.1 = i
    · rw [if_pos hp] at h
      injection h with h2
      have hpa : p = (i, a) := by
        obtain ⟨p1, p2⟩ := p
        simp only at hp h2
        rw [hp, h2]
      rw [← hpa]
      exact List.mem_cons_self _ _
    · rw [if_neg hp] at h
      exact List.mem_cons_of_mem _ (ih h)

/-- The pairs returned by the loop, beyond those already accumulated, all
carry replacement handles at or above the initial allocation counter. -/
theorem ulgLoop_ok_sndGe (wb : BBox) (selfId : Nat) (ch : List Node) (selfShared : Nat)
    (inv : Transform) :
    ∀ (ms : List Nat) (w : World) (acc : List (Nat × Nat)) (w2 : World) (ps : List (Nat × Nat)),
      ulgLoop wb selfId ch selfShared inv ms w acc = (w2, Except.ok ps) →
      ∀ p ∈ ps, p ∈ acc ∨ w.nextNodeId ≤ p.2 := by
  intro ms
  induction ms with
  | nil =>
    intro w acc w2 ps h p hp
    simp only [ulgLoop, Prod.mk.injEq, Except.ok.injEq] at h
    rw [← h.2] at hp
    exact Or.inl hp
  | cons m rest ih =>
    intro w acc w2 ps h p hp
    simp only [ulgLoop] at h
    split at h
    · exact ih _ _ _ _ h p hp
    · split at h
      · exact absurd h (by simp)
      · rcases ih _ _ _ _ h p hp with hin | hge
        · rcases List.mem_append.mp hin with hin2 | hin2
          · exact Or.inl hin2
          · simp only [List.mem_singleton] at hin2
            subst hin2
            exact Or.inr (Nat.le_refl _)
        · exact Or.inr (Nat.le_trans (Nat.le_succ _) hge)

/-- C6: updateLinkedGroups never mutates the live tree. Whether it succeeds or
fails, every node handle and every shared record allocated before the call
resolves identically afterwards, so the propagating node and every link set
member keep their children, Group values, member lists and entity properties;
and every returned replacement handle is fresh: it resolves to nothing in the
world before the call. -/
theorem claimC6 (w : World) (selfId : Nat) (wb : BBox)
    (hb : ∀ p ∈ w.nodes, p.1 < w.nextNodeId) :
    (∀ i, i < w.nextNodeId →
      assocFind ((updateLinkedGroups w selfId wb).1).nodes i = assocFind w.nodes i)
    ∧ (∀ r, r < w.nextRecId →
      assocFind ((updateLinkedGroups w selfId wb).1).recs r = assocFind w.recs r)
    ∧ (∀ ps, (updateLinkedGroups w selfId wb).2 = Except.ok ps →
        ∀ p ∈ ps, w.nextNodeId ≤ p.2 ∧ assocFind w.nodes p.2 = none) := by
  refine ⟨(updateLinkedGroups_frame w selfId wb).2.2.1,
    (updateLinkedGroups_frame w selfId wb).2.2.2, ?_⟩
  intro ps hok p hp
  have hge : w.nextNodeId ≤ p.2 := by
    revert hok
    simp only [updateLinkedGroups]
    split
    · intro hok
      simp at hok
    · rename_i inv heq
      cases h3 : ulgLoop wb selfId (getNode w selfId).children (getNode w selfId).sharedData
        inv (linkedGroups w selfId) w [] with
      | mk w2x r2 =>
        intro hok
        simp only at hok
        subst hok
        rcases ulgLoop_ok_sndGe wb selfId _ _ inv _ w [] _ ps h3 p hp with hin | hge2
        · simp at hin
        · exact hge2
  refine ⟨hge, ?_⟩
  cases hfind : assocFind w.nodes p.2 with
  | none => rfl
  | some a =>
    have := hb _ (assocFind_mem hfind)
    omega

/-- C6 witness: in the concrete two-member scenario all live handles resolve
identically after the call and every returned replacement handle is fresh. -/
theorem claimC6_witness :
    (∀ p ∈ wPair.nodes, p.1 < wPair.nextNodeId)
    ∧ ((∀ i, i < wPair.nextNodeId →
        assocFind ((updateLinkedGroups wPair 0 bigBounds).1).nodes i = assocFind wPair.nodes i)
      ∧ (∀ r, r < wPair.nextRecId →
        assocFind ((updateLinkedGroups wPair 0 bigBounds).1).recs r = assocFind wPair.recs r)
      ∧ (∀ ps, (updateLinkedGroups wPair 0 bigBounds).2 = Except.ok ps →
          ∀ p ∈ ps, wPair.nextNodeId ≤ p.2 ∧ assocFind wPair.nodes p.2 = none)) :=
  ⟨by decide, claimC6 wPair 0 bigBounds (by decide)⟩

/-! ## All-or-nothing failure -/

/-! Unfolding equations of the mutual recursive functions, proved by rfl. -/

theorem catcN_world (wb : BBox) (t : Transform) (cs : List Node) :
    cloneAndTransformNode wb t (Node.world cs)
      = Except.error ⟨"Visited world node while updating linked groups"⟩ := rfl

theorem catcN_layer (wb : BBox) (t : Transform) (cs : List Node) :
    cloneAndTransformNode wb t (Node.layer cs)
      = Except.error ⟨"Visited layer node while updating linked groups"⟩ := rfl

theorem catcN_group (wb : BBox) (t : Transform) (g : Group) (cs : List Node) :
    cloneAndTransformNode wb t (Node.group g cs)
      = if BBox.containsB wb zeroBox then
          match cloneAndTransformChildren wb t cs with
          | Except.error e => Except.error e
          | Except.ok cs2 => Except.ok (Node.group (Group.transform g t) cs2)
        else Except.error ⟨"Linked node exceeds world bounds"⟩ := rfl

theorem catcN_entity (wb : BBox) (t : Transform) (e : Entity) (cs : List Node) :
    cloneAndTransformNode wb t (Node.entity e cs)
      = if BBox.containsB wb (pointBox (Entity.transform e t).origin) then
          match cloneAndTransformChildren wb t cs with
          | Except.error err => Except.error err
          | Except.ok cs2 => Except.ok (Node.entity (Entity.transform e t) cs2)
        else Except.error ⟨"Linked node exceeds world bounds"⟩ := rfl

theorem catcN_brush (wb : BBox) (t : Transform) (b : Brush) (cs : List Node) :
    cloneAndTransformNode wb t (Node.brush b cs)
      = match Brush.transform b wb t true with
        | none => Except.error ⟨"Brush transform failed"⟩
        | some b2 =>
          if BBox.containsB wb ⟨b2.lo, b2.hi⟩ then
            match cloneAndTransformChildren wb t cs with
            | Except.error e => Except.error e
            | Except.ok cs2 => Except.ok (Node.brush b2 cs2)
          else Except.error ⟨"Linked node exceeds world bounds"⟩ := rfl

theorem catcL_nil (wb : BBox) (t : Transform) :
    cloneAndTransformChildren wb t [] = Except.ok [] := rfl

theorem catcL_cons (wb : BBox) (t : Transform) (c : Node) (rest : List Node) :
    cloneAndTransformChildren wb t (c :: rest)
      = match cloneAndTransformNode wb t c with
        | Except.error e => Except.error e
        | Except.ok c2 =>
          match cloneAndTransformChildren wb t rest with
          | Except.error e => Except.error e
          | Except.ok rest2 => Except.ok (c2 :: rest2) := rfl

theorem subtreeOk1_world (wb : BBox) (t : Transform) (cs : List Node) :
    subtreeOk1 wb t (Node.world cs) = false := rfl

theorem subtreeOk1_layer (wb : BBox) (t : Transform) (cs : List Node) :
    subtreeOk1 wb t (Node.layer cs) = false := rfl

theorem subtreeOk1_group (wb : BBox) (t : Transform) (g : Group) (cs : List Node) :
    subtreeOk1 wb t (Node.group g cs)
      = (BBox.containsB wb zeroBox && subtreeOkB wb t cs) := rfl

theorem subtreeOk1_entity (wb : BBox) (t : Transform) (e : Entity) (cs : List Node) :
    subtreeOk1 wb t (Node.entity e cs)
      = (BBox.containsB wb (pointBox (Entity.transform e t).origin)
          && subtreeOkB wb t cs) := rfl

theorem subtreeOk1_brush (wb : BBox) (t : Transform) (b : Brush) (cs : List Node) :
    subtreeOk1 wb t (Node.brush b cs)
      = match Brush.transform b wb t true with
        | none => false
        | some b2 => BBox.containsB wb ⟨b2.lo, b2.hi⟩ && subtreeOkB wb t cs := rfl

theorem subtreeOkB_nil (wb : BBox) (t : Transform) : subtreeOkB wb t [] = true := rfl

theorem subtreeOkB_cons (wb : BBox) (t : Transform) (c : Node) (rest : List Node) :
    subtreeOkB wb t (c :: rest)
      = (subtreeOk1 wb t c && subtreeOkB wb t rest) := rfl

/-- The clone algorithm succeeds exactly when no node of the subtree list
fails: its success flag coincides with the recursive no-failure predicate. -/
theorem catc_isOk_eq (wb : BBox) (t : Transform) :
    ∀ l, exceptIsOk (cloneAndTransformChildren wb t l) = subtreeOkB wb t l := by
  apply cloneAndTransformChildren.induct wb t
    (fun n => exceptIsOk (cloneAndTransformNode wb t n) = subtreeOk1 wb t n)
    (fun l => exceptIsOk (cloneAndTransformChildren wb t l) = subtreeOkB wb t l)
  all_goals intros
  all_goals
    simp_all [catcN_world, catcN_layer, catcN_group, catcN_entity, catcN_brush,
      catcL_nil, catcL_cons, subtreeOk1_world, subtreeOk1_layer, subtreeOk1_group,
      subtreeOk1_entity, subtreeOk1_brush, subtreeOkB_nil, subtreeOkB_cons, exceptIsOk]

theorem step_nextNodeId (w : World) (g : Group) (o2 o3 : GroupNodeObj) :
    (setNode (setNode (newGroupNode w g).1 (newGroupNode w g).2 o2)
      (newGroupNode w g).2 o3).nextNodeId = w.nextNodeId + 1 := rfl

/-- When the members of the loop split as an initial segment of members whose
clone succeeds followed by a failing member, the loop returns exactly the
error of the failing member, discarding everything accumulated. -/
theorem ulgLoop_error_decomp (wb : BBox) (selfId : Nat) (ch : List Node) (selfShared : Nat)
    (inv : Transform) :
    ∀ (ms : List Nat) (w : World) (acc : List (Nat × Nat)) (pre : List Nat) (m : Nat)
      (rest : List Nat) (e : UpdateLinkedGroupsError),
      (∀ m2 ∈ ms, m2 < w.nextNodeId) →
      ms.filter (fun x => x != selfId) = pre ++ m :: rest →
      (∀ m2 ∈ pre, exceptIsOk (cloneAndTransformChildren wb
          (Transform.comp (getNode w m2).group.transformation inv) ch) = true) →
      cloneAndTransformChildren wb (Transform.comp (getNode w m).group.transformation inv) ch
        = Except.error e →
      (ulgLoop wb selfId ch selfShared inv ms w acc).2 = Except.error e := by
  intro ms
  induction ms with
  | nil =>
    intro w acc pre m rest e hb hsplit hpre herr
    rw [List.filter_nil] at hsplit
    cases pre <;> simp at hsplit
  | cons m0 rest0 ih =>
    intro w acc pre m rest e hb hsplit hpre herr
    simp only [ulgLoop]
    split
    · rename_i hm0
      refine ih w acc pre m rest e (fun m2 hm2 => hb m2 (List.mem_cons_of_mem _ hm2)) ?_ hpre herr
      rwa [List.filter_cons, if_neg (by simp [hm0])] at hsplit
    · rename_i hm0
      rw [List.filter_cons, if_pos (by simp [hm0])] at hsplit
      cases pre with
      | nil =>
        simp only [List.nil_append] at hsplit
        injection hsplit with h1 h2
        subst h1
        rw [herr]
      | cons p0 pre2 =>
        simp only [List.cons_append] at hsplit
        injection hsplit with h1 h2
        have hok0 := hpre p0 (List.mem_cons_self _ _)
        rw [← h1] at hok0
        split
        · rename_i e0 heq0
          rw [heq0] at hok0
          simp [exceptIsOk] at hok0
        · rename_i nc heq0
          have hframe := frame_step w (getNode w m0).group
            { getNode (newGroupNode w (getNode w m0).group).1
                (newGroupNode w (getNode w m0).group).2 with sharedData := selfShared }
            { getNode (setNode (newGroupNode w (getNode w m0).group).1
                (newGroupNode w (getNode w m0).group).2
                { getNode (newGroupNode w (getNode w m0).group).1
                    (newGroupNode w (getNode w m0).group).2 with sharedData := selfShared })
                (newGroupNode w (getNode w m0).group).2 with
                children := preserveEntityPropertiesList nc (getNode w m0).children }
          have hmem2 : ∀ m2, m2 ∈ pre2 ++ m :: rest → m2 ∈ rest0 := by
            intro m2 hm2
            rw [← h2] at hm2
            exact List.mem_of_mem_filter hm2
          refine ih _ _ pre2 m rest e ?_ h2 ?_ ?_
          · intro m2 hm2
            rw [step_nextNodeId]
            exact Nat.lt_succ_of_lt (hb m2 (List.mem_cons_of_mem _ hm2))
          · intro m2 hm2
            rw [getNode_frame hframe
              (hb m2 (List.mem_cons_of_mem _ (hmem2 m2 (List.mem_append_left _ hm2))))]
            exact hpre m2 (List.mem_cons_of_mem _ hm2)
          · rw [getNode_frame hframe
              (hb m (List.mem_cons_of_mem _ (hmem2 m (by simp))))]
            exact herr

/-- C4: all-or-nothing failure. First conjunct: if any node anywhere in a
subtree list fails (world or layer kind, brush transform failure, or world
bounds violation once transformed), the clone algorithm reports failure.
Second conjunct: if the members other than the propagating node split into an
initial segment whose clones succeed and a member whose clone fails with e,
updateLinkedGroups returns exactly that single error and no replacement pair
for any member. -/
theorem claimC4 (w : World) (selfId : Nat) (wb : BBox) (inv : Transform)
    (hinv : Transform.invert (getNode w selfId).group.transformation = (true, inv))
    (hmBound : ∀ m ∈ linkedGroups w selfId, m < w.nextNodeId) :
    (∀ t l, subtreeOkB wb t l = false → exceptIsOk (cloneAndTransformChildren wb t l) = false)
    ∧ (∀ (pre : List Nat) (m : Nat) (rest : List Nat) (e : UpdateLinkedGroupsError),
        (linkedGroups w selfId).filter (fun x => x != selfId) = pre ++ m :: rest →
        (∀ m2 ∈ pre, exceptIsOk (cloneAndTransformChildren wb
            (Transform.comp (getNode w m2).group.transformation inv)
            (getNode w selfId).children) = true) →
        cloneAndTransformChildren wb
            (Transform.comp (getNode w m).group.transformation inv)
            (getNode w selfId).children = Except.error e →
        (updateLinkedGroups w selfId wb).2 = Except.error e) := by
  constructor
  · intro t l hfail
    rw [catc_isOk_eq wb t l, hfail]
  · intro pre m rest e hsplit hpre herr
    simp only [updateLinkedGroups, hinv]
    exact ulgLoop_error_decomp wb selfId (getNode w selfId).children
      (getNode w selfId).sharedData inv (linkedGroups w selfId) w [] pre m rest e
      hmBound hsplit hpre herr

/-- C4 witness: under the tight world bounds the translated brush of member B
escapes, the no-failure predicate is false, the clone algorithm fails, and the
whole update returns exactly the bounds-exceeded error with no pairs. -/
theorem claimC4_witness :
    subtreeOkB smallBounds (Transform.comp (getNode wPair 1).group.transformation
        (translateT ⟨-8, 0, 0⟩)) (getNode wPair 0).children = false
    ∧ exceptIsOk (cloneAndTransformChildren smallBounds
        (Transform.comp (getNode wPair 1).group.transformation (translateT ⟨-8, 0, 0⟩))
        (getNode wPair 0).children) = false
    ∧ (updateLinkedGroups wPair 0 smallBounds).2
        = Except.error ⟨"Linked node exceeds world bounds"⟩ := by
  refine ⟨by rfl, ?_, ?_⟩
  · exact (claimC4 wPair 0 smallBounds (translateT ⟨-8, 0, 0⟩) (by rfl) (by decide)).1
      (Transform.comp (getNode wPair 1).group.transformation (translateT ⟨-8, 0, 0⟩))
      (getNode wPair 0).children (by rfl)
  · exact (claimC4 wPair 0 smallBounds (translateT ⟨-8, 0, 0⟩) (by rfl) (by decide)).2
      [] 1 [] ⟨"Linked node exceeds world bounds"⟩ (by rfl) (by simp) (by rfl)

/-! ## Pair invariants of the update loop -/

theorem clonePairInv_mono (wb : BBox) (ch : List Node) (selfShared : Nat) (inv : Transform)
    {v v2 : World} (hf : FrameGe v v2) {p : Nat × Nat}
    (hp : clonePairInv wb ch selfShared inv v p) :
    clonePairInv wb ch selfShared inv v2 p := by
  obtain ⟨h1, h2, h3, nc, h4, h5⟩ := hp
  refine ⟨Nat.lt_of_lt_of_le h1 hf.1, Nat.lt_of_lt_of_le h2 hf.1, ?_, nc, ?_, ?_⟩
  · rw [getNode_frame hf h2]
    exact h3
  · rw [getNode_frame hf h1]
    exact h4
  · rw [getNode_frame hf h2, getNode_frame hf h1]
    exact h5

theorem ulgLoop_ok_pairsQ (wb : BBox) (selfId : Nat) (ch : List Node) (selfShared : Nat)
    (inv : Transform) :
    ∀ (ms : List Nat) (w : World) (acc : List (Nat × Nat)) (w2 : World) (ps : List (Nat × Nat)),
      ulgLoop wb selfId ch selfShared inv ms w acc = (w2, Except.ok ps) →
      (∀ m ∈ ms, m < w.nextNodeId) →
      (∀ p ∈ acc, clonePairInv wb ch selfShared inv w p) →
      ∀ p ∈ ps, clonePairInv wb ch selfShared inv w2 p := by
  intro ms
  induction ms with
  | nil =>
    intro w acc w2 ps h hb hacc p hp
    simp only [ulgLoop, Prod.mk.injEq, Except.ok.injEq] at h
    obtain ⟨hw, hps⟩ := h
    subst hw
    subst hps
    exact hacc p hp
  | cons m rest ih =>
    intro w acc w2 ps h hb hacc p hp
    simp only [ulgLoop] at h
    split at h
    · exact ih _ _ _ _ h (fun m2 hm2 => hb m2 (List.mem_cons_of_mem _ hm2)) hacc p hp
    · rename_i hm0
      split at h
      · exact absurd h (by simp)
      · rename_i nc heq
        have hmlt : m < w.nextNodeId := hb m (List.mem_cons_self _ _)
        refine ih _ _ _ _ h ?_ ?_ p hp
        · intro m2 hm2
          rw [step_nextNodeId]
          exact Nat.lt_succ_of_lt (hb m2 (List.mem_cons_of_mem _ hm2))
        · intro q hq
          rcases List.mem_append.mp hq with hin | hin
          · exact clonePairInv_mono wb ch selfShared inv (frame_step _ _ _ _) (hacc q hin)
          · simp only [List.mem_singleton] at hin
            subst hin
            refine ⟨?_, ?_, ?_, nc, ?_, ?_⟩
            · rw [step_nextNodeId]
              exact Nat.lt_succ_of_lt hmlt
            · rw [step_nextNodeId, newGroupNode_snd]
              exact Nat.lt_succ_self _
            · simp only [getNode_setNode_self]
            · rw [getNode_frame (frame_step _ _ _ _) hmlt]
              exact heq
            · rw [getNode_frame (frame_step _ _ _ _) hmlt]
              simp only [getNode_setNode_self]

/-- Elimination of a successful updateLinkedGroups call into its inverse
transformation and loop equation. -/
theorem updateLinkedGroups_ok_elim (w : World) (selfId : Nat) (wb : BBox) (w2 : World)
    (ps : List (Nat × Nat))
    (h : updateLinkedGroups w selfId wb = (w2, Except.ok ps)) :
    ∃ inv, Transform.invert (getNode w selfId).group.transformation = (true, inv)
      ∧ ulgLoop wb selfId (getNode w selfId).children (getNode w selfId).sharedData inv
          (linkedGroups w selfId) w [] = (w2, Except.ok ps) := by
  revert h
  simp only [updateLinkedGroups]
  split
  · intro h
    simp at h
  · rename_i inv heq
    intro h
    exact ⟨inv, heq, h⟩

/-- C3: relative transform. First conjunct: on success, for every returned
pair the children of the replacement are exactly the children of the
propagating node cloned and transformed with the composition of the member
transformation and the inverse of the own transformation, reconciled against
the children of the member. The remaining conjuncts settle the literal
2-member scenario: member A is translated by (32, 0, 0) relative to member B
whose own transform is the translation (8, 0, 0); updateLinkedGroups on B
returns exactly one pair whose replacement holds the brush of B translated by
the relative delta (32, 0, 0), and not by the absolute transform of B. -/
theorem claimC3 (w : World) (selfId : Nat) (wb : BBox) (inv : Transform) (w2 : World)
    (ps : List (Nat × Nat))
    (hinv : Transform.invert (getNode w selfId).group.transformation = (true, inv))
    (hmBound : ∀ m ∈ linkedGroups w selfId, m < w.nextNodeId)
    (h : updateLinkedGroups w selfId wb = (w2, Except.ok ps)) :
    (∀ p ∈ ps, ∃ nc,
        cloneAndTransformChildren wb
          (Transform.comp (getNode w p.1).group.transformation inv)
          (getNode w selfId).children = Except.ok nc
        ∧ (getNode w2 p.2).children
            = preserveEntityPropertiesList nc (getNode w p.1).children)
    ∧ (updateLinkedGroups wPair 0 bigBounds).2 = Except.ok [(1, 2)]
    ∧ (getNode (updateLinkedGroups wPair 0 bigBounds).1 2).children
        = [Node.brush ⟨⟨32, 0, 0⟩, ⟨48, 16, 16⟩⟩ []]
    ∧ nodeB.children = [Node.brush ⟨⟨0, 0, 0⟩, ⟨16, 16, 16⟩⟩ []]
    ∧ translateBox ⟨⟨0, 0, 0⟩, ⟨16, 16, 16⟩⟩ ⟨32, 0, 0⟩ = ⟨⟨32, 0, 0⟩, ⟨48, 16, 16⟩⟩
    ∧ translateBox ⟨⟨0, 0, 0⟩, ⟨16, 16, 16⟩⟩ ⟨8, 0, 0⟩ ≠ ⟨⟨32, 0, 0⟩, ⟨48, 16, 16⟩⟩ := by
  refine ⟨?_, by rfl, by rfl, by rfl, by rfl, by decide⟩
  intro p hp
  obtain ⟨inv2, hinv2, hloop⟩ := updateLinkedGroups_ok_elim w selfId wb w2 ps h
  rw [hinv] at hinv2
  injection hinv2 with h1 h2
  rw [← h2] at hloop
  have hframe : FrameGe w w2 := by
    have := updateLinkedGroups_frame w selfId wb
    rw [h] at this
    exact this
  have hQ := ulgLoop_ok_pairsQ wb selfId (getNode w selfId).children
    (getNode w selfId).sharedData inv (linkedGroups w selfId) w [] w2 ps hloop hmBound
    (by simp) p hp
  obtain ⟨hp1, hp2, hsh, nc, hcatc, hchild⟩ := hQ
  have hp1mem : p.1 ∈ linkedGroups w selfId := by
    have hmap := ulgLoop_ok_mapFst wb selfId (getNode w selfId).children
      (getNode w selfId).sharedData inv (linkedGroups w selfId) w [] w2 ps hloop
    have : p.1 ∈ ps.map Prod.fst := List.mem_map_of_mem _ hp
    rw [hmap] at this
    simp only [List.map_nil, List.nil_append] at this
    exact List.mem_of_mem_filter this
  have hp1lt : p.1 < w.nextNodeId := hmBound _ hp1mem
  rw [getNode_frame hframe hp1lt] at hcatc hchild
  exact ⟨nc, hcatc, hchild⟩

/-- C3 witness: the first conjunct applied to the concrete scenario. -/
theorem claimC3_witness :
    ∃ nc,
      cloneAndTransformChildren bigBounds
        (Transform.comp (getNode wPair 1).group.transformation (translateT ⟨-8, 0, 0⟩))
        (getNode wPair 0).children = Except.ok nc
      ∧ (getNode (updateLinkedGroups wPair 0 bigBounds).1 2).children
          = preserveEntityPropertiesList nc (getNode wPair 1).children :=
  (claimC3 wPair 0 bigBounds (translateT ⟨-8, 0, 0⟩) (updateLinkedGroups wPair 0 bigBounds).1
    [(1, 2)] (by rfl) (by decide) (by rfl)).1 (1, 2) (by simp)

/-! ## Replacement nodes share the record but are not linked -/

theorem step_getRec (w : World) (g : Group) (o2 o3 : GroupNodeObj) (j : Nat) :
    getRec (setNode (setNode (newGroupNode w g).1 (newGroupNode w g).2 o2)
      (newGroupNode w g).2 o3) j
    = (assocFind (assocSet w.recs w.nextRecId ⟨[], none⟩) j).getD ⟨[], none⟩ := rfl

/-- The update loop never grows any member list: every entry of a record list
in the final world was already in the corresponding record list initially
(fresh records start empty and addToLinkSet touches no list). -/
theorem ulgLoop_recLists (wb : BBox) (selfId : Nat) (ch : List Node) (selfShared : Nat)
    (inv : Transform) :
    ∀ (ms : List Nat) (w : World) (acc : List (Nat × Nat)) (j x : Nat),
      x ∈ (getRec (ulgLoop wb selfId ch selfShared inv ms w acc).1 j).linkedGroups →
      x ∈ (getRec w j).linkedGroups := by
  intro ms
  induction ms with
  | nil =>
    intro w acc j x hx
    exact hx
  | cons m rest ih =>
    intro w acc j x hx
    simp only [ulgLoop] at hx
    split at hx
    · exact ih _ _ _ _ hx
    · split at hx
      · exact hx
      · have hx2 := ih _ _ _ _ hx
        rw [step_getRec] at hx2
        by_cases hj : j = w.nextRecId
        · subst hj
          rw [assocFind_set_self] at hx2
          simp at hx2
        · rw [assocFind_set_ne _ _ _ _ hj] at hx2
          exact hx2

theorem updateLinkedGroups_recLists (w : World) (selfId : Nat) (wb : BBox) (j x : Nat)
    (hx : x ∈ (getRec (updateLinkedGroups w selfId wb).1 j).linkedGroups) :
    x ∈ (getRec w j).linkedGroups := by
  revert hx
  simp only [updateLinkedGroups]
  split
  · exact fun hx => hx
  · exact fun hx => ulgLoop_recLists wb selfId _ _ _ _ w [] j x hx

/-- Entries of any record member list are bounded by the node allocation
counter when the world is well formed. -/
theorem getRec_lg_bound (w : World)
    (hr : ∀ p ∈ w.recs, ∀ g ∈ p.2.linkedGroups, g < w.nextNodeId) (j x : Nat)
    (hx : x ∈ (getRec w j).linkedGroups) : x < w.nextNodeId := by
  rw [getRec] at hx
  cases hfind : assocFind w.recs j with
  | none =>
    rw [hfind] at hx
    simp at hx
  | some d =>
    rw [hfind] at hx
    exact hr (j, d) (assocFind_mem hfind) x hx

/-- C10 counterexample: in the world wDetachedPair, reachable through the
public operations alone, node 1 sits in the member list of the record of node
0 while referencing the record of node 2. updateLinkedGroups on node 0
succeeds and returns exactly the pair of the old member 1 and the replacement
3, yet the replacement is not in a link set with the old member: the
unconditional sentence that the replacement is in a link set with its member
is false in the code. -/
theorem claimC10_cex :
    (updateLinkedGroups wDetachedPair 0 bigBounds).2 = Except.ok [(1, 3)]
    ∧ ¬ inLinkSetWith (updateLinkedGroups wDetachedPair 0 bigBounds).1 1 3 :=
  ⟨by rfl, by decide⟩

/-- C10 (amended): every pair of a successful updateLinkedGroups consists of
the old member and a replacement that shares the link set record of the
propagating node, yet is not linked and appears in the member list snapshot
of no node: the caller must link it after splicing. The replacement is in a
link set with its old member precisely when that member itself still
references the record of the propagating node — true for every attached
member, but not for a member that was detached from that record while
remaining in its member list. -/
theorem claimC10 (w : World) (selfId : Nat) (wb : BBox) (w2 : World) (ps : List (Nat × Nat))
    (hself : selfId < w.nextNodeId)
    (hmBound : ∀ m ∈ linkedGroups w selfId, m < w.nextNodeId)
    (hrecBound : ∀ p ∈ w.recs, ∀ g ∈ p.2.linkedGroups, g < w.nextNodeId)
    (h : updateLinkedGroups w selfId wb = (w2, Except.ok ps)) :
    ∀ p ∈ ps, inLinkSetWith w2 selfId p.2
      ∧ (inLinkSetWith w2 p.1 p.2
          ↔ (getNode w p.1).sharedData = (getNode w selfId).sharedData)
      ∧ linked w2 p.2 = false ∧ (∀ g, p.2 ∉ linkedGroups w2 g) := by
  intro p hp
  obtain ⟨inv, hinv, hloop⟩ := updateLinkedGroups_ok_elim w selfId wb w2 ps h
  have hframe : FrameGe w w2 := by
    have := updateLinkedGroups_frame w selfId wb
    rw [h] at this
    exact this
  have hQ := ulgLoop_ok_pairsQ wb selfId (getNode w selfId).children
    (getNode w selfId).sharedData inv (linkedGroups w selfId) w [] w2 ps hloop hmBound
    (by simp) p hp
  obtain ⟨hp1, hp2, hsh, nc, hcatc, hchild⟩ := hQ
  have hp1mem : p.1 ∈ linkedGroups w selfId := by
    have hmap := ulgLoop_ok_mapFst wb selfId (getNode w selfId).children
      (getNode w selfId).sharedData inv (linkedGroups w selfId) w [] w2 ps hloop
    have hmem : p.1 ∈ ps.map Prod.fst := List.mem_map_of_mem _ hp
    rw [hmap] at hmem
    simp only [List.map_nil, List.nil_append] at hmem
    exact List.mem_of_mem_filter hmem
  have hp1lt : p.1 < w.nextNodeId := hmBound _ hp1mem
  have hfresh : w.nextNodeId ≤ p.2 := by
    rcases ulgLoop_ok_sndGe wb selfId (getNode w selfId).children
      (getNode w selfId).sharedData inv (linkedGroups w selfId) w [] w2 ps hloop p hp
      with hin | hge
    · simp at hin
    · exact hge
  have hrecs2 : ∀ j y, y ∈ (getRec w2 j).linkedGroups → y ∈ (getRec w j).linkedGroups := by
    intro j y hy
    refine updateLinkedGroups_recLists w selfId wb j y ?_
    rw [h]
    exact hy
  refine ⟨?_, ?_, ?_, ?_⟩
  · show (getNode w2 p.2).sharedData = (getNode w2 selfId).sharedData
    rw [getNode_frame hframe hself]
    exact hsh
  · show (getNode w2 p.2).sharedData = (getNode w2 p.1).sharedData ↔ _
    rw [getNode_frame hframe hp1lt, hsh]
    exact eq_comm
  · rw [linked]
    cases hc : ((getRec w2 (getNode w2 p.2).sharedData).linkedGroups.contains p.2) with
    | false => rfl
    | true =>
      exfalso
      have hmem : p.2 ∈ (getRec w2 (getNode w2 p.2).sharedData).linkedGroups :=
        List.mem_of_elem_eq_true hc
      have := getRec_lg_bound w hrecBound _ _ (hrecs2 _ _ hmem)
      omega
  · intro g hmem
    rw [linkedGroups] at hmem
    have := getRec_lg_bound w hrecBound _ _ (hrecs2 _ _ hmem)
    omega

/-- C10 witness: in the attached two-member scenario the replacement 2 shares
the record of the propagating node 0, the membership equivalence holds with
its right side true for the attached member 1, and the replacement is neither
linked nor listed anywhere; in the detached scenario the same theorem applies
with the right side of the equivalence false for the detached member 1. -/
theorem claimC10_witness :
    (inLinkSetWith (updateLinkedGroups wPair 0 bigBounds).1 0 2
      ∧ (inLinkSetWith (updateLinkedGroups wPair 0 bigBounds).1 1 2
          ↔ (getNode wPair 1).sharedData = (getNode wPair 0).sharedData)
      ∧ linked (updateLinkedGroups wPair 0 bigBounds).1 2 = false
      ∧ (∀ g, 2 ∉ linkedGroups (updateLinkedGroups wPair 0 bigBounds).1 g))
    ∧ (inLinkSetWith (updateLinkedGroups wDetachedPair 0 bigBounds).1 0 3
      ∧ (inLinkSetWith (updateLinkedGroups wDetachedPair 0 bigBounds).1 1 3
          ↔ (getNode wDetachedPair 1).sharedData = (getNode wDetachedPair 0).sharedData)
      ∧ linked (updateLinkedGroups wDetachedPair 0 bigBounds).1 3 = false
      ∧ (∀ g, 3 ∉ linkedGroups (updateLinkedGroups wDetachedPair 0 bigBounds).1 g)) :=
  ⟨claimC10 wPair 0 bigBounds (updateLinkedGroups wPair 0 bigBounds).1 [(1, 2)]
      (by decide) (by decide) (by decide) (by rfl) (1, 2) (by simp),
   claimC10 wDetachedPair 0 bigBounds (updateLinkedGroups wDetachedPair 0 bigBounds).1
      [(1, 3)] (by decide) (by decide) (by decide) (by rfl) (1, 3) (by simp)⟩

/-! ## Entity property preservation -/

theorem getPropL_removePropL (k q : String) :
    ∀ l, getPropL (removePropL l k) q = if q = k then none else getPropL l q := by
  intro l
  induction l with
  | nil => simp [removePropL, getPropL]
  | cons p rest ih =>
    rw [removePropL]
    by_cases hp : p.1 = k
    · rw [if_pos hp, ih]
      by_cases hq : q = k
      · simp [hq]
      · have hpq : ¬ p.1 = q := by
          rw [hp]
          exact fun hh => hq hh.symm
        simp [getPropL, hq, hpq]
    · rw [if_neg hp, getPropL]
      by_cases hpq : p.1 = q
      · have hqk : ¬ q = k := fun hh => hp (by rw [hpq, hh])
        simp [getPropL, hpq, hqk]
      · simp [getPropL, hpq, ih]

theorem getPropL_addOrUpdatePropL (k v q : String) :
    ∀ l, getPropL (addOrUpdatePropL l k v) q = if q = k then some v else getPropL l q := by
  intro l
  induction l with
  | nil =>
    by_cases hq : q = k
    · simp [addOrUpdatePropL, getPropL, hq]
    · have : ¬ k = q := fun hh => hq hh.symm
      simp [addOrUpdatePropL, getPropL, hq, this]
  | cons p rest ih =>
    rw [addOrUpdatePropL]
    by_cases hp : p.1 = k
    · rw [if_pos hp]
      by_cases hq : q = k
      · simp [getPropL, hq]
      · have h1 : ¬ k = q := fun hh => hq hh.symm
        have h2 : ¬ p.1 = q := by
          rw [hp]
          exact h1
        simp [getPropL, hq, h1, h2]
    · rw [if_neg hp, getPropL, getPropL, ih]
      by_cases hpq : p.1 = q
      · have hqk : ¬ q = k := fun hh => hp (by rw [hpq, hh])
        simp [hpq, hqk]
      · simp [hpq]

theorem getPropL_filterNot (pred : String → Bool) (q : String) :
    ∀ l, getPropL (l.filter (fun p => !(pred p.1))) q
      = if pred q = true then none else getPropL l q := by
  intro l
  induction l with
  | nil => simp [getPropL]
  | cons p rest ih =>
    rw [List.filter_cons]
    by_cases hp : pred p.1 = true
    · rw [if_neg (by simp [hp]), ih]
      by_cases hq : pred q = true
      · simp [hq]
      · have hpq : ¬ p.1 = q := fun hh => hq (hh ▸ hp)
        simp [getPropL, hq, hpq]
    · rw [if_pos (by simp [hp]), getPropL]
      by_cases hpq : p.1 = q
      · have hq : ¬ pred q = true := fun hh => hp (hpq ▸ hh)
        simp [getPropL, hpq, hq]
      · simp [getPropL, hpq, ih]

theorem lastVal_filter (pred : String → Bool) (q : String) :
    ∀ l, lastVal (l.filter (fun p => pred p.1)) q
      = if pred q = true then lastVal l q else none := by
  intro l
  induction l with
  | nil => simp [lastVal]
  | cons p rest ih =>
    rw [List.filter_cons]
    by_cases hp : pred p.1 = true
    · rw [if_pos (by simp [hp]), lastVal, ih]
      by_cases hq : pred q = true
      · rw [if_pos hq, if_pos hq, lastVal]
      · rw [if_neg hq, if_neg hq]
        have hpq : ¬ p.1 = q := fun hh => hq (hh ▸ hp)
        simp [hpq]
    · rw [if_neg (by simp [hp]), ih]
      by_cases hq : pred q = true
      · rw [if_pos hq, if_pos hq, lastVal]
        have hpq : ¬ p.1 = q := fun hh => hp (by rw [hh]; exact hq)
        cases hr : lastVal rest q with
        | none => simp [hr, hpq]
        | some v => simp [hr]
      · simp [hq]

theorem getPropL_not_mem (q : String) :
    ∀ l : List (String × String), q ∉ l.map Prod.fst → getPropL l q = none := by
  intro l
  induction l with
  | nil => intro h; rfl
  | cons p rest ih =>
    intro h
    rw [getPropL]
    have hp : ¬ p.1 = q := by
      intro hh
      exact h (by simp [hh])
    rw [if_neg hp]
    exact ih (fun hh => h (by simp [hh]))

theorem lastVal_nodup (q : String) :
    ∀ l : List (String × String), (l.map Prod.fst).Nodup →
      lastVal l q = getPropL l q := by
  intro l
  induction l with
  | nil => intro h; rfl
  | cons p rest ih =>
    intro h
    rw [List.map_cons, List.nodup_cons] at h
    rw [lastVal, getPropL, ih h.2]
    by_cases hp : p.1 = q
    · have hnot : q ∉ rest.map Prod.fst := by
        rw [← hp]
        exact h.1
      rw [getPropL_not_mem q rest hnot]
    · cases hr : getPropL rest q with
      | none => simp [hr, hp]
      | some v => simp [hr, hp]

theorem getPropL_foldl_addOrUpdate (q : String) :
    ∀ (l c : List (String × String)),
      getPropL (List.foldl (fun acc p => addOrUpdatePropL acc p.1 p.2) c l) q
        = match lastVal l q with
          | some v => some v
          | none => getPropL c q := by
  intro l
  induction l with
  | nil =>
    intro c
    rfl
  | cons p rest ih =>
    intro c
    rw [List.foldl_cons, ih, lastVal]
    cases hr : lastVal rest q with
    | some v => simp [hr]
    | none =>
      by_cases hpq : p.1 = q
      · simp [hr, getPropL_addOrUpdatePropL, hpq]
      · have hqp : ¬ q = p.1 := fun hh => hpq hh.symm
        simp [hr, getPropL_addOrUpdatePropL, hpq, hqp]

theorem property_removeProperty (e : Entity) (k q : String) :
    (e.removeProperty k).property q = if q = k then none else e.property q := by
  show getPropL (removePropL e.properties k) q = _
  rw [getPropL_removePropL]
  rfl

theorem property_addOrUpdateProperty (e : Entity) (k v q : String) :
    (e.addOrUpdateProperty k v).property q = if q = k then some v else e.property q := by
  show getPropL (addOrUpdatePropL e.properties k v) q = _
  rw [getPropL_addOrUpdatePropL]
  rfl

theorem property_removeNumberedProperty (e : Entity) (k q : String) :
    (e.removeNumberedProperty k).property q
      = if isNumberedOf k q = true then none else e.property q := by
  show getPropL (e.properties.filter (fun p => !(isNumberedOf k p.1))) q = _
  rw [getPropL_filterNot]
  rfl

theorem foldlAdd_properties (l : List (String × String)) :
    ∀ c : Entity,
      (List.foldl (fun acc p => Entity.addOrUpdateProperty acc p.1 p.2) c l).properties
        = List.foldl (fun lp p => addOrUpdatePropL lp p.1 p.2) c.properties l := by
  induction l with
  | nil =>
    intro c
    rfl
  | cons p rest ih =>
    intro c
    rw [List.foldl_cons, List.foldl_cons, ih]
    rfl

theorem foldlAdd_preserved (l : List (String × String)) :
    ∀ c : Entity,
      (List.foldl (fun acc p => Entity.addOrUpdateProperty acc p.1 p.2) c l).preservedProperties
        = c.preservedProperties := by
  induction l with
  | nil =>
    intro c
    rfl
  | cons p rest ih =>
    intro c
    rw [List.foldl_cons, ih]
    rfl

theorem property_foldlAdd (l : List (String × String)) (c : Entity) (q : String) :
    (List.foldl (fun acc p => Entity.addOrUpdateProperty acc p.1 p.2) c l).property q
      = match lastVal l q with
        | some v => some v
        | none => c.property q := by
  show getPropL (List.foldl (fun acc p => Entity.addOrUpdateProperty acc p.1 p.2) c l).properties q = _
  rw [foldlAdd_properties, getPropL_foldl_addOrUpdate]
  cases lastVal l q <;> rfl

theorem isNumberedOf_self (k : String) : isNumberedOf k k = false := by
  simp [isNumberedOf]

theorem preserved_preserveStep (t c : Entity) (k : String) :
    (preserveStep t c k).preservedProperties = c.preservedProperties := by
  simp only [preserveStep]
  rw [foldlAdd_preserved]
  cases htk : Entity.property t k
  · rfl
  · rfl

theorem property_preserveStep (t c : Entity) (k q : String)
    (ht : (t.properties.map Prod.fst).Nodup) :
    (preserveStep t c k).property q
      = if (q == k || isNumberedOf k q) = true then t.property q else c.property q := by
  simp only [preserveStep]
  rw [property_foldlAdd]
  rw [show Entity.numberedProperties t k
    = t.properties.filter (fun p => isNumberedOf k p.1) from rfl]
  rw [lastVal_filter]
  by_cases hqk : q = k
  · subst hqk
    rw [isNumberedOf_self]
    simp only [Bool.false_eq_true, if_false]
    rw [property_removeNumberedProperty, isNumberedOf_self]
    simp only [Bool.false_eq_true, if_false]
    cases htk : Entity.property t q with
    | none =>
      rw [property_removeProperty, if_pos rfl]
      simp [htk]
    | some v =>
      rw [property_addOrUpdateProperty, if_pos rfl]
      simp [htk]
  · by_cases hnum : isNumberedOf k q = true
    · rw [if_pos hnum, lastVal_nodup q t.properties ht]
      have hcond : (q == k || isNumberedOf k q) = true := by
        simp [hnum]
      rw [if_pos hcond]
      cases htq : Entity.property t q with
      | none =>
        rw [show getPropL t.properties q = Entity.property t q from rfl, htq]
        rw [property_removeNumberedProperty, if_pos hnum]
      | some v =>
        rw [show getPropL t.properties q = Entity.property t q from rfl, htq]
    · rw [if_neg hnum]
      have hcond : ¬ (q == k || isNumberedOf k q) = true := by
        simp [hnum, hqk]
      rw [if_neg hcond]
      show (Entity.removeNumberedProperty _ k).property q = c.property q
      rw [property_removeNumberedProperty, if_neg hnum]
      cases htk : Entity.property t k with
      | none =>
        rw [property_removeProperty, if_neg hqk]
      | some v =>
        rw [property_addOrUpdateProperty, if_neg hqk, property_removeProperty, if_neg hqk]

theorem preserved_foldl_preserveStep (t : Entity) :
    ∀ (keys : List String) (c : Entity),
      (List.foldl (preserveStep t) c keys).preservedProperties = c.preservedProperties := by
  intro keys
  induction keys with
  | nil =>
    intro c
    rfl
  | cons k ks ih =>
    intro c
    rw [List.foldl_cons, ih, preserved_preserveStep]

theorem property_foldl_preserveStep (t : Entity) (q : String)
    (ht : (t.properties.map Prod.fst).Nodup) :
    ∀ (keys : List String) (c : Entity),
      (List.foldl (preserveStep t) c keys).property q
        = if keys.any (fun k => q == k || isNumberedOf k q) = true
          then t.property q else c.property q := by
  intro keys
  induction keys with
  | nil =>
    intro c
    simp
  | cons k ks ih =>
    intro c
    rw [List.foldl_cons, ih, List.any_cons]
    by_cases hks : ks.any (fun k2 => q == k2 || isNumberedOf k2 q) = true
    · simp [hks]
    · rw [if_neg hks, property_preserveStep t c k q ht]
      by_cases hk : (q == k || isNumberedOf k q) = true
      · simp [hk, hks]
      · simp [hk, hks]

theorem mem_insortS (x s : String) :
    ∀ l, x ∈ insortS s l ↔ x = s ∨ x ∈ l := by
  intro l
  induction l with
  | nil => simp [insortS]
  | cons t ts ih =>
    rw [insortS]
    by_cases h : strLeb s t = true
    · simp [h]
    · rw [if_neg h]
      simp [ih]
      tauto

theorem mem_sortIns (x : String) : ∀ l, x ∈ sortIns l ↔ x ∈ l := by
  intro l
  induction l with
  | nil => simp [sortIns]
  | cons s rest ih =>
    rw [sortIns, mem_insortS]
    simp [ih]

theorem mem_dedupAdj (x : String) : ∀ l, x ∈ dedupAdj l ↔ x ∈ l := by
  intro l
  induction l using dedupAdj.induct with
  | case1 => simp [dedupAdj]
  | case2 a => simp [dedupAdj]
  | case3 b rest ih =>
    rw [dedupAdj, if_pos rfl, ih]
    simp
  | case4 a b rest hab ih =>
    rw [dedupAdj, if_neg hab]
    simp [ih]

theorem any_sortDedup (p : String → Bool) (l : List String) :
    (sortDedup l).any p = l.any p := by
  cases hl : l.any p with
  | true =>
    obtain ⟨x, hx, hpx⟩ := List.any_eq_true.mp hl
    exact List.any_eq_true.mpr
      ⟨x, (mem_dedupAdj x _).mpr ((mem_sortIns x l).mpr hx), hpx⟩
  | false =>
    cases hs : (sortDedup l).any p with
    | false => rfl
    | true =>
      obtain ⟨x, hx, hpx⟩ := List.any_eq_true.mp hs
      have hxl : x ∈ l := (mem_sortIns x l).mp ((mem_dedupAdj x _).mp hx)
      rw [← hl]
      exact (List.any_eq_true.mpr ⟨x, hxl, hpx⟩).symm

/-- C1: the entity property preservation merge. If neither entity declares
preserved keys, the cloned entity is returned unchanged. Otherwise the
declared preserved key set of the clone is replaced by exactly the declared
set of the target, and every property lookup on the result reads the target
value for every key in the union of both declared sets and for every numbered
variant of such a key, while every other property of the clone is untouched.
The target entity is assumed to be a well formed mapping: no duplicate
keys. -/
theorem claimC1 (c t : Entity) (ht : (t.properties.map Prod.fst).Nodup) :
    (c.preservedProperties = [] ∧ t.preservedProperties = [] →
      preserveEntityProperties c t = c)
    ∧ (¬(c.preservedProperties = [] ∧ t.preservedProperties = []) →
        (preserveEntityProperties c t).preservedProperties = t.preservedProperties
        ∧ ∀ q, (preserveEntityProperties c t).property q
            = if (c.preservedProperties ++ t.preservedProperties).any
                (fun k => q == k || isNumberedOf k q) = true
              then t.property q else c.property q) := by
  constructor
  · intro h
    rw [preserveEntityProperties, if_pos h]
  · intro h
    rw [preserveEntityProperties, if_neg h]
    constructor
    · rw [preserved_foldl_preserveStep]
      rfl
    · intro q
      rw [property_foldl_preserveStep t q ht, any_sortDedup]
      rfl

/-- C1 witness: concrete entities with a preserved key k on the target side:
the target value v0 wins for k, the numbered variant k2 follows the target,
the propagated property other keeps the clone value, and the preserved key
declaration of the target is retained. -/
theorem claimC1_witness :
    (preserveEntityProperties entC entT).preservedProperties = entT.preservedProperties
    ∧ (preserveEntityProperties entC entT).property "k" = entT.property "k"
    ∧ (preserveEntityProperties entC entT).property "k2" = entT.property "k2"
    ∧ (preserveEntityProperties entC entT).property "other" = entC.property "other" := by
  refine ⟨?_, ?_, ?_, ?_⟩
  · exact ((claimC1 entC entT (by decide)).2 (by decide)).1
  · have hq := ((claimC1 entC entT (by decide)).2 (by decide)).2 "k"
    rw [hq]
    rfl
  · have hq := ((claimC1 entC entT (by decide)).2 (by decide)).2 "k2"
    rw [hq]
    rfl
  · have hq := ((claimC1 entC entT (by decide)).2 (by decide)).2 "other"
    rw [hq]
    rfl

end TB
